import Mathlib

/-
  Verification of the JetStream reverse proxy against its specification.

  The development shallowly embeds the Go source:
  * Go strings are modelled as lists of characters (GoStr).
  * Pure helpers (strings.Split, strings.Join, strings.HasPrefix,
    strings.ReplaceAll on single characters, strings.TrimSpace,
    the hand-rolled contains helper) are translated directly.
  * Stateful code is modelled by explicit state passing; network and
    filesystem outcomes are inputs to the embedded functions.
-/

namespace JetStream

/-- Go strings modelled as lists of characters. -/
abbrev GoStr := List Char

/-- Embedding of Go strings.Split with a single-character separator:
splitting the empty string yields one empty field, and every occurrence
of the separator starts a new field. -/
def goSplit (sep : Char) : GoStr → List GoStr
  | [] => [[]]
  | c :: rest =>
    if c = sep then
      [] :: goSplit sep rest
    else
      match goSplit sep rest with
      | [] => [[c]]
      | h :: t => (c :: h) :: t

/-- Embedding of Go strings.Join with a single-character separator. -/
def goJoin (sep : Char) : List GoStr → GoStr
  | [] => []
  | [x] => x
  | x :: xs => x ++ sep :: goJoin sep xs

theorem goSplit_ne_nil (sep : Char) (s : GoStr) : goSplit sep s ≠ [] := by
  cases s with
  | nil => simp [goSplit]
  | cons c rest =>
    by_cases h : c = sep
    · simp [goSplit, h]
    · simp only [goSplit, if_neg h]
      cases goSplit sep rest <;> simp

theorem goSplit_of_not_mem (sep : Char) (s : GoStr) (h : sep ∉ s) :
    goSplit sep s = [s] := by
  induction s with
  | nil => simp [goSplit]
  | cons c rest ih =>
    have hc : ¬ c = sep := fun hh => h (hh ▸ List.mem_cons_self c rest)
    have hr : sep ∉ rest := fun hm => h (List.mem_cons_of_mem _ hm)
    simp [goSplit, if_neg hc, ih hr]

/-- Splitting distributes over an occurrence of the separator. -/
theorem goSplit_append_sep (sep : Char) (xs ys : GoStr) :
    goSplit sep (xs ++ sep :: ys) = goSplit sep xs ++ goSplit sep ys := by
  induction xs with
  | nil => simp [goSplit]
  | cons c rest ih =>
    by_cases hc : c = sep
    · subst hc
      simp [goSplit, ih]
    · simp only [List.cons_append, goSplit, if_neg hc, List.append_eq]
      rw [ih]
      have hne := goSplit_ne_nil sep rest
      cases hsr : goSplit sep rest with
      | nil => exact absurd hsr hne
      | cons h t => simp

theorem goJoin_cons_cons (sep : Char) (c : Char) (h : GoStr) (t : List GoStr) :
    goJoin sep ((c :: h) :: t) = c :: goJoin sep (h :: t) := by
  cases t <;> simp [goJoin]

/-- Joining undoes splitting. -/
theorem goJoin_goSplit (sep : Char) (s : GoStr) :
    goJoin sep (goSplit sep s) = s := by
  induction s with
  | nil => simp [goSplit, goJoin]
  | cons c rest ih =>
    by_cases hc : c = sep
    · subst hc
      have hne := goSplit_ne_nil c rest
      cases hsr : goSplit c rest with
      | nil => exact absurd hsr hne
      | cons h t =>
        rw [hsr] at ih
        show goJoin c (goSplit c (c :: rest)) = c :: rest
        simp only [goSplit, if_pos rfl, hsr, goJoin]
        simp [ih]
    · have hne := goSplit_ne_nil sep rest
      cases hsr : goSplit sep rest with
      | nil => exact absurd hsr hne
      | cons h t =>
        rw [hsr] at ih
        simp only [goSplit, if_neg hc, hsr, goJoin_cons_cons, ih]

/-- Splitting undoes joining when no field contains the separator. -/
theorem goSplit_goJoin (sep : Char) (l : List GoStr) (hl : l ≠ [])
    (h : ∀ x ∈ l, sep ∉ x) :
    goSplit sep (goJoin sep l) = l := by
  induction l with
  | nil => exact absurd rfl hl
  | cons x xs ih =>
    cases xs with
    | nil =>
      simp only [goJoin]
      exact goSplit_of_not_mem sep x (h x (List.mem_cons_self x []))
    | cons y ys =>
      have hx : sep ∉ x := h x (List.mem_cons_self _ _)
      have hrest : ∀ z ∈ y :: ys, sep ∉ z := fun z hz => h z (List.mem_cons_of_mem _ hz)
      have : goJoin sep (x :: y :: ys) = x ++ sep :: goJoin sep (y :: ys) := by
        simp [goJoin]
      rw [this, goSplit_append_sep, goSplit_of_not_mem sep x hx,
        ih (by simp) hrest]
      simp

/- ===================== ID codec (pkg/subsonic) ===================== -/

/-- Embedding of subsonic.ParseID from pkg/subsonic/constants.go.
Returns (isExternal, provider, mediaType, externalID). -/
def parseID (id : GoStr) : Bool × GoStr × GoStr × GoStr :=
  if ¬ ("ext-".toList.isPrefixOf id) then
    (false, [], [], id)
  else
    let parts := goSplit '-' id
    if 4 ≤ parts.length then
      (true, parts.getD 1 [], parts.getD 2 [], goJoin '-' (parts.drop 3))
    else if 3 ≤ parts.length then
      (true, parts.getD 1 [], [], goJoin '-' (parts.drop 2))
    else
      (false, [], [], id)

/-- Embedding of subsonic.BuildID from pkg/subsonic/constants.go. -/
def buildID (provider mediaType externalID : GoStr) : GoStr :=
  "ext-".toList ++ provider ++ "-".toList ++ mediaType ++ "-".toList ++ externalID

theorem buildID_shape (p k o : GoStr) :
    buildID p k o = ['e', 'x', 't'] ++ '-' :: (p ++ '-' :: (k ++ '-' :: o)) := by
  simp [buildID]

/-- Claim C1 (counterexample): the round-trip law fails when the provider
segment itself contains a dash. BuildID("a-b","song","x") decodes with
provider "a" and mediaType "b", not provider "a-b" and mediaType "song". -/
theorem parseID_buildID_dash_provider :
    parseID (buildID "a-b".toList "song".toList "x".toList) =
      (true, "a".toList, "b".toList, "song-x".toList) ∧
    parseID (buildID "a-b".toList "song".toList "x".toList) ≠
      (true, "a-b".toList, "song".toList, "x".toList) := by
  constructor
  · decide
  · decide

/-- Claim C1 (amended): provided the provider and kind segments contain no
dash, decoding the encoded identifier recovers all three components
byte-for-byte, and the opaque segment may itself contain dashes. -/
theorem parseID_buildID (p k o : GoStr) (hp : '-' ∉ p) (hk : '-' ∉ k) :
    parseID (buildID p k o) = (true, p, k, o) := by
  have hsplit : goSplit '-' (buildID p k o) = ['e', 'x', 't'] :: p :: k :: goSplit '-' o := by
    rw [buildID_shape, goSplit_append_sep, goSplit_append_sep, goSplit_append_sep,
      goSplit_of_not_mem '-' ['e', 'x', 't'] (by decide),
      goSplit_of_not_mem '-' p hp, goSplit_of_not_mem '-' k hk]
    simp
  have hpre : ("ext-".toList.isPrefixOf (buildID p k o)) = true := by
    rw [buildID_shape]
    simp [List.isPrefixOf]
  have hne := goSplit_ne_nil '-' o
  cases hso : goSplit '-' o with
  | nil => exact absurd hso hne
  | cons h t =>
    rw [hso] at hsplit
    have hjoin : goJoin '-' (h :: t) = o := by
      rw [← hso, goJoin_goSplit]
    have hlen : 4 ≤ (goSplit '-' (buildID p k o)).length := by
      rw [hsplit]; simp only [List.length_cons]; omega
    unfold parseID
    simp [hpre, hsplit, hlen, hjoin]
    rw [buildID_shape]
    exact ⟨p ++ '-' :: (k ++ '-' :: o), by simp⟩

/-- Claim C1 (witness): the spec scenario decode(encode("p","song","7-abc")). -/
theorem parseID_buildID_witness :
    ('-' ∉ "p".toList) ∧ ('-' ∉ "song".toList) ∧
      parseID (buildID "p".toList "song".toList "7-abc".toList) =
        (true, "p".toList, "song".toList, "7-abc".toList) :=
  ⟨by decide, by decide,
    parseID_buildID "p".toList "song".toList "7-abc".toList (by decide) (by decide)⟩

/-- Claim C2 (counterexample): a string starting with ext- that splits into
exactly three segments does not fall back to Native: the legacy branch
returns isExternal = true with an empty mediaType. -/
theorem parseID_three_segments :
    ("ext-".toList.isPrefixOf "ext-p-1".toList = true) ∧
    (goSplit '-' "ext-p-1".toList).length < 4 ∧
    parseID "ext-p-1".toList = (true, "p".toList, [], "1".toList) := by
  refine ⟨by decide, by decide, by decide⟩

/-- Claim C2 (amended): a string starting with ext- falls back to Native,
returned unchanged, only when it splits into fewer than THREE segments;
with exactly three segments the legacy external branch applies. -/
theorem parseID_short (s : GoStr)
    (hpre : "ext-".toList.isPrefixOf s = true)
    (hlen : (goSplit '-' s).length < 3) :
    parseID s = (false, [], [], s) := by
  unfold parseID
  rw [hpre]
  have h4 : ¬ 4 ≤ (goSplit '-' s).length := by omega
  have h3 : ¬ 3 ≤ (goSplit '-' s).length := by omega
  simp [h4, h3]

/-- Claim C2 (witness): the two-segment string ext-abc decodes to Native. -/
theorem parseID_short_witness :
    ("ext-".toList.isPrefixOf "ext-abc".toList = true) ∧
    (goSplit '-' "ext-abc".toList).length < 3 ∧
    parseID "ext-abc".toList = (false, [], [], "ext-abc".toList) :=
  ⟨by decide, by decide, parseID_short "ext-abc".toList (by decide) (by decide)⟩

/- ===================== Gateway client (internal/service/squid.go) ===================== -/

/-- Endpoint state for one catalog URL, mirroring URLState. Timestamps are
modelled as natural numbers of seconds. -/
structure URLState where
  url : GoStr
  nextAvailable : Nat
  deriving DecidableEq, Repr

/-- The mutable endpoint-rotation state of SquidService: the per-endpoint
table and the process-global rotation index. -/
structure GWState where
  currentURLIndex : Nat
  urlStates : List URLState
  deriving DecidableEq, Repr

/-- Embedding of the hand-rolled contains helper from squid.go. -/
def goContains (s substr : GoStr) : Bool :=
  match s with
  | [] =>
      decide (substr.length ≤ ([] : GoStr).length) &&
        (([] : GoStr) == substr ||
          (decide (0 < substr.length) && (List.take substr.length [] == substr || false)))
  | c :: rest =>
      decide (substr.length ≤ (c :: rest).length) &&
        ((c :: rest) == substr ||
          (decide (0 < substr.length) &&
            (List.take substr.length (c :: rest) == substr || goContains rest substr)))

/-- Embedding of getCurrentURL: scan round-robin from the current index for
an endpoint whose cooldown has expired; if every endpoint is cooling down,
fall back to the current one. -/
def getCurrentURL (cfgSquidURL : GoStr) (st : GWState) (now : Nat) : GoStr :=
  if st.urlStates.length = 0 then cfgSquidURL
  else
    let found := (List.range st.urlStates.length).findSome? fun i =>
      let idx := (st.currentURLIndex + i) % st.urlStates.length
      match st.urlStates.get? idx with
      | some e => if e.nextAvailable < now then some e.url else none
      | none => none
    match found with
    | some u => u
    | none => (st.urlStates.getD st.currentURLIndex ⟨[], 0⟩).url

/-- Cooldown applied by markFailure: 30 minutes, in seconds. -/
def cooldownSeconds : Nat := 30 * 60

/-- The loop body of markFailure: stamp the first endpoint whose URL matches
and report whether a match was found. -/
def markCooldown (now : Nat) (baseURL : GoStr) : List URLState → List URLState × Bool
  | [] => ([], false)
  | e :: rest =>
    if e.url == baseURL then
      ({ url := e.url, nextAvailable := now + cooldownSeconds } :: rest, true)
    else
      let r := markCooldown now baseURL rest
      (e :: r.1, r.2)

/-- Embedding of markFailure: put the failed endpoint on cooldown and, when
more than one endpoint exists, advance the rotation index modulo the number
of endpoints. -/
def markFailure (st : GWState) (now : Nat) (baseURL : GoStr) : GWState :=
  let r := markCooldown now baseURL st.urlStates
  if r.2 && decide (1 < st.urlStates.length) then
    { currentURLIndex := (st.currentURLIndex + 1) % st.urlStates.length, urlStates := r.1 }
  else
    { currentURLIndex := st.currentURLIndex, urlStates := r.1 }

/-- The loop of tryWithFallback. The per-endpoint action is modelled as an
oracle mapping the attempt number and base URL to either none (success) or
some error string. Returns the surfaced error (none on success) and the
final endpoint state. -/
def tryLoop (cfgSquidURL : GoStr) (oracle : Nat → GoStr → Option GoStr) (now : Nat) :
    Nat → Nat → Option GoStr → GWState → Option GoStr × GWState
  | 0, _, lastErr, st => (lastErr, st)
  | fuel + 1, attempt, _, st =>
    let baseURL := getCurrentURL cfgSquidURL st now
    match oracle attempt baseURL with
    | none => (none, st)
    | some err =>
      let is429 := goContains err "429".toList
      if is429 then
        tryLoop cfgSquidURL oracle now fuel (attempt + 1) (some err) (markFailure st now baseURL)
      else
        tryLoop cfgSquidURL oracle now fuel (attempt + 1) (some err) (markFailure st now baseURL)

/-- Embedding of tryWithFallback from internal/service/squid.go: walk the
endpoint list once, treating every error as a reason to mark the endpoint
failed and move on; surface the last error only when the walk ends. -/
def tryWithFallback (cfgSquidURL : GoStr) (oracle : Nat → GoStr → Option GoStr)
    (st : GWState) (now : Nat) : Option GoStr × GWState :=
  let maxAttempts := if st.urlStates.length = 0 then 1 else st.urlStates.length
  tryLoop cfgSquidURL oracle now maxAttempts 0 none st

/-- A two-endpoint state used to exercise the fallback driver. -/
def fallbackStateC3 : GWState :=
  { currentURLIndex := 0
    urlStates := [⟨"u0".toList, 0⟩, ⟨"u1".toList, 0⟩] }

/-- An action that fails with HTTP 404 (a non-recoverable 4xx) on the first
attempt and succeeds on the second. -/
def oracle404 : Nat → GoStr → Option GoStr :=
  fun attempt _ => if attempt = 0 then some "HTTP 404".toList else none

/-- Claim C3 (counterexample): after the per-endpoint action fails with
HTTP 404 (a 4xx other than 429) the driver does not surface the error:
it rotates to the second endpoint, which succeeds, and the failed endpoint
has been put on a 30-minute cooldown with the index advanced. -/
theorem tryWithFallback_404_rotates :
    (tryWithFallback [] oracle404 fallbackStateC3 10).1 = none ∧
    ((tryWithFallback [] oracle404 fallbackStateC3 10).2.urlStates.getD 0 ⟨[], 0⟩).nextAvailable
      = 10 + cooldownSeconds ∧
    (tryWithFallback [] oracle404 fallbackStateC3 10).2.currentURLIndex = 1 := by
  refine ⟨by decide, by decide, by decide⟩

/-- Claim C3 (amended): on ANY action error, 429 or not, the driver marks
the current endpoint failed (cooldown stamp and index advance) and proceeds
to the next attempt; only when the attempt budget is exhausted does it
return the most recent error. -/
theorem tryWithFallback_rotates_on_error (cfg : GoStr)
    (oracle : Nat → GoStr → Option GoStr) (now fuel attempt : Nat)
    (lastErr : Option GoStr) (st : GWState) (err : GoStr)
    (h : oracle attempt (getCurrentURL cfg st now) = some err) :
    tryLoop cfg oracle now (fuel + 1) attempt lastErr st =
      tryLoop cfg oracle now fuel (attempt + 1) (some err)
        (markFailure st now (getCurrentURL cfg st now)) ∧
    tryLoop cfg oracle now 0 attempt lastErr st = (lastErr, st) := by
  constructor
  · simp only [tryLoop, h]
    split <;> rfl
  · rfl

/-- Claim C3 (amended, witness): instantiation at the concrete 404 run. -/
theorem tryWithFallback_rotates_on_error_witness :
    oracle404 0 (getCurrentURL [] fallbackStateC3 10) = some "HTTP 404".toList ∧
    (tryLoop [] oracle404 10 2 0 none fallbackStateC3 =
      tryLoop [] oracle404 10 1 1 (some "HTTP 404".toList)
        (markFailure fallbackStateC3 10 (getCurrentURL [] fallbackStateC3 10)) ∧
    tryLoop [] oracle404 10 0 0 none fallbackStateC3 = (none, fallbackStateC3)) :=
  ⟨by decide,
    tryWithFallback_rotates_on_error [] oracle404 10 1 0 none fallbackStateC3
      "HTTP 404".toList (by decide)⟩

/-- Spec of markCooldown: the first match gets the cooldown stamp, every
other entry is untouched, and the match flag is accurate. -/
theorem markCooldown_spec (now : Nat) (u : GoStr) :
    ∀ l : List URLState, u ∈ l.map URLState.url →
      (markCooldown now u l).2 = true ∧
      (markCooldown now u l).1.length = l.length ∧
      (markCooldown now u l).1.get? (l.findIdx fun e => e.url == u) =
        some { url := u, nextAvailable := now + cooldownSeconds } ∧
      ∀ j, j ≠ (l.findIdx fun e => e.url == u) →
        (markCooldown now u l).1.get? j = l.get? j := by
  intro l
  induction l with
  | nil => simp
  | cons e rest ih =>
    intro hmem
    by_cases he : e.url = u
    · have heb : (e.url == u) = true := by simp [he]
      refine ⟨by simp [markCooldown, heb], by simp [markCooldown, heb],
        ?_, ?_⟩
      · simp [markCooldown, heb, List.findIdx_cons, he]
      · intro j hj
        rw [List.findIdx_cons, heb] at hj
        simp only [cond_true] at hj
        match j with
        | 0 => exact absurd rfl hj
        | j + 1 => simp [markCooldown, heb]
    · have heb : (e.url == u) = false := by simp [he]
      have hmem' : u ∈ rest.map URLState.url := by
        rcases List.mem_map.1 hmem with ⟨x, hx, hxu⟩
        rcases List.mem_cons.1 hx with hx0 | hx1
        · exact absurd (hx0 ▸ hxu) he
        · exact List.mem_map.2 ⟨x, hx1, hxu⟩
      obtain ⟨hfound, hlen, hget, hother⟩ := ih hmem'
      have hidx : (List.findIdx (fun e => e.url == u) (e :: rest)) =
          (List.findIdx (fun e => e.url == u) rest) + 1 := by
        rw [List.findIdx_cons, heb]; rfl
      refine ⟨by simp [markCooldown, heb, hfound], by simp [markCooldown, heb, hlen], ?_, ?_⟩
      · rw [hidx]
        simpa [markCooldown, heb] using hget
      · intro j hj
        rw [hidx] at hj
        match j with
        | 0 => simp [markCooldown, heb]
        | j + 1 =>
          have : j ≠ List.findIdx (fun e => e.url == u) rest := by omega
          simpa [markCooldown, heb] using hother j this

/-- Claim C8: when the table contains an endpoint with URL u, markFailure
stamps that endpoint's availability to now plus 30 minutes, leaves every
other endpoint untouched, and advances the index by one modulo the number
of endpoints exactly when more than one endpoint exists. The write happens
as a single atomic state transition. -/
theorem markFailure_spec (st : GWState) (now : Nat) (u : GoStr)
    (h : u ∈ st.urlStates.map URLState.url) :
    (markFailure st now u).urlStates.length = st.urlStates.length ∧
    (markFailure st now u).urlStates.get? (st.urlStates.findIdx fun e => e.url == u) =
      some { url := u, nextAvailable := now + cooldownSeconds } ∧
    (∀ j, j ≠ (st.urlStates.findIdx fun e => e.url == u) →
      (markFailure st now u).urlStates.get? j = st.urlStates.get? j) ∧
    (markFailure st now u).currentURLIndex =
      (if 1 < st.urlStates.length then (st.currentURLIndex + 1) % st.urlStates.length
       else st.currentURLIndex) := by
  obtain ⟨hfound, hlen, hget, hother⟩ := markCooldown_spec now u st.urlStates h
  simp only [List.get?_eq_getElem?] at hget hother
  unfold markFailure
  by_cases hl : 1 < st.urlStates.length
  · refine ⟨by simp [hfound, hlen, hl], by simp [hfound, hget, hl],
      fun j hj => by simpa [hfound, hl] using hother j hj, by simp [hfound, hl]⟩
  · refine ⟨by simp [hfound, hlen, hl], by simp [hfound, hget, hl],
      fun j hj => by simpa [hfound, hl] using hother j hj, by simp [hfound, hl]⟩

/-- Claim C8 (witness): a concrete two-endpoint table where the second
endpoint fails. -/
theorem markFailure_spec_witness :
    ("u1".toList ∈ fallbackStateC3.urlStates.map URLState.url) ∧
    ((markFailure fallbackStateC3 10 "u1".toList).urlStates.length =
        fallbackStateC3.urlStates.length ∧
      (markFailure fallbackStateC3 10 "u1".toList).urlStates.get?
          (fallbackStateC3.urlStates.findIdx fun e => e.url == "u1".toList) =
        some { url := "u1".toList, nextAvailable := 10 + cooldownSeconds } ∧
      (∀ j, j ≠ (fallbackStateC3.urlStates.findIdx fun e => e.url == "u1".toList) →
        (markFailure fallbackStateC3 10 "u1".toList).urlStates.get? j =
          fallbackStateC3.urlStates.get? j) ∧
      (markFailure fallbackStateC3 10 "u1".toList).currentURLIndex =
        (if 1 < fallbackStateC3.urlStates.length then
          (fallbackStateC3.currentURLIndex + 1) % fallbackStateC3.urlStates.length
         else fallbackStateC3.currentURLIndex)) :=
  ⟨by decide, markFailure_spec fallbackStateC3 10 "u1".toList (by decide)⟩

/- ===================== Subsonic models (pkg/subsonic/models.go) ===================== -/

/-- Subsonic song entity; only the fields the verified code paths read are
carried (Go nil slices and empty strings coincide in this model). -/
structure Song where
  id : GoStr := []
  title : GoStr := []
  artist : GoStr := []
  album : GoStr := []
  coverArt : GoStr := []
  track : Int := 0
  year : Int := 0
  genre : GoStr := []
  deriving DecidableEq, Repr, Inhabited

/-- Subsonic album entity. -/
structure Album where
  id : GoStr := []
  title : GoStr := []
  name : GoStr := []
  artist : GoStr := []
  artistID : GoStr := []
  songCount : Int := 0
  year : Int := 0
  coverArt : GoStr := []
  deriving DecidableEq, Repr, Inhabited

/-- Subsonic artist entity. -/
structure Artist where
  id : GoStr := []
  name : GoStr := []
  coverArt : GoStr := []
  albumCount : Int := 0
  deriving DecidableEq, Repr, Inhabited

/-- Subsonic playlist entity. -/
structure Playlist where
  id : GoStr := []
  name : GoStr := []
  songCount : Int := 0
  duration : Int := 0
  created : GoStr := []
  coverArt : GoStr := []
  owner : GoStr := []
  public : Bool := false
  deriving DecidableEq, Repr, Inhabited

/-- The searchResult3 container of the Subsonic response. -/
structure SearchResult3 where
  artist : List Artist := []
  album : List Album := []
  song : List Song := []
  playlist : List Playlist := []
  deriving DecidableEq, Repr, Inhabited

/-- Subsonic error object. -/
structure SubsonicError where
  code : Int
  message : GoStr
  deriving DecidableEq, Repr

/-- The subset of the top-level Subsonic response relevant to search. -/
structure Response where
  status : GoStr := []
  version : GoStr := []
  searchResult3 : Option SearchResult3 := none
  error : Option SubsonicError := none
  deriving DecidableEq, Repr, Inhabited

/- ===================== Response merger (Search3 handler) ===================== -/

/-- Per-kind truncation step of the Search3 handler: slice to the limit only
when the list is longer than the limit. -/
def truncateGo {α : Type} (limit : Int) (l : List α) : List α :=
  if (limit : Int) < l.length then l.take limit.toNat else l

/-- Embedding of the merge phase of SearchHandler.Search3, the pure
computation performed after both concurrent sub-requests have joined.
navidromeResult is none when the library request failed before producing a
decodable response; squidResult is none when the gateway search errored. -/
def search3Merge (searchLimit : Int) (navidromeResult : Option Response)
    (squidResult : Option SearchResult3) : Response :=
  let nav : Response :=
    match navidromeResult with
    | none =>
      { status := "ok".toList, version := "1.16.1".toList,
        searchResult3 := some {}, error := none }
    | some r => { r with status := "ok".toList, error := none }
  let sr : SearchResult3 := nav.searchResult3.getD {}
  let sr2 : SearchResult3 :=
    match squidResult with
    | some sq =>
      { song := sr.song ++ sq.song, album := sr.album ++ sq.album,
        artist := sr.artist ++ sq.artist, playlist := sr.playlist ++ sq.playlist }
    | none => sr
  let limit : Int := if searchLimit ≤ 0 then 50 else searchLimit
  let sr3 : SearchResult3 :=
    { song := truncateGo limit sr2.song, album := truncateGo limit sr2.album,
      artist := truncateGo limit sr2.artist, playlist := sr2.playlist }
  { nav with searchResult3 := some sr3 }

/-- A raw playlist item as decoded from the gateway search response. -/
structure RawPlaylistItem where
  uuid : GoStr := []
  title : GoStr := []
  squareImage : GoStr := []
  numberOfTracks : Int := 0
  duration : Int := 0
  created : GoStr := []
  deriving DecidableEq, Repr

/-- Entity mapping done by fetchPlaylists for a single decoded item. -/
def convPlaylist (item : RawPlaylistItem) : Playlist :=
  { id := buildID "squidwtf".toList "playlist".toList item.uuid,
    name := item.title, songCount := item.numberOfTracks,
    duration := item.duration, created := item.created,
    coverArt := buildID "squidwtf".toList "playlist".toList item.uuid,
    owner := "Tidal".toList, public := true }

/-- The indexed mapping loop of fetchPlaylists: stop as soon as the index
reaches the configured search limit (when that limit is positive). -/
def fetchPlaylistsLoop (searchLimit : Int) : Nat → List RawPlaylistItem → List Playlist
  | _, [] => []
  | i, item :: rest =>
    if searchLimit > 0 ∧ (i : Int) ≥ searchLimit then []
    else convPlaylist item :: fetchPlaylistsLoop searchLimit (i + 1) rest

theorem fetchPlaylistsLoop_length (searchLimit : Int) :
    ∀ (items : List RawPlaylistItem) (i : Nat), 0 < searchLimit →
      (fetchPlaylistsLoop searchLimit i items).length ≤ (searchLimit - i).toNat := by
  intro items
  induction items with
  | nil => intro i _; simp [fetchPlaylistsLoop]
  | cons item rest ih =>
    intro i hpos
    by_cases hstop : searchLimit > 0 ∧ (i : Int) ≥ searchLimit
    · simp [fetchPlaylistsLoop, hstop]
    · have hi : (i : Int) < searchLimit := by
        rcases not_and_or.1 hstop with h | h
        · exact absurd hpos h
        · omega
      have := ih (i + 1) hpos
      simp only [fetchPlaylistsLoop, if_neg hstop, List.length_cons]
      omega

theorem truncateGo_length {α : Type} (limit : Int) (hpos : 0 < limit) (l : List α) :
    ((truncateGo limit l).length : Int) ≤ limit := by
  unfold truncateGo
  split
  · rename_i hlt
    rw [List.length_take]
    have : limit.toNat ≤ l.length := by omega
    simp only [Nat.min_def, if_pos this]
    omega
  · omega

/-- A library response carrying two playlists, used to exhibit the missing
playlist truncation. -/
def navTwoPlaylists : Response :=
  { status := "failed".toList, version := "1.16.1".toList,
    searchResult3 := some { playlist := [{ id := "p1".toList }, { id := "p2".toList }] },
    error := none }

/-- Claim C6 (counterexample): with SEARCH_LIMIT = 1 the merged response
keeps both contributed playlists; the playlist kind is not truncated by the
merge, so more than SEARCH_LIMIT playlist entries appear. -/
theorem search3Merge_playlists_not_truncated :
    1 < ((search3Merge 1 (some navTwoPlaylists) none).searchResult3.getD {}).playlist.length ∧
    ((search3Merge 1 (some navTwoPlaylists) none).searchResult3.getD {}).song.length ≤ 1 := by
  refine ⟨by decide, by decide⟩

/-- Claim C6 (amended): the merge truncates songs, albums and artists to the
effective limit, but concatenates playlists untouched; only the gateway-side
fetchPlaylists loop caps its own contribution at the search limit. -/
theorem search3Merge_truncation (searchLimit : Int) (nav : Option Response)
    (squid : Option SearchResult3) (items : List RawPlaylistItem)
    (hpos : 0 < searchLimit) :
    (((search3Merge searchLimit nav squid).searchResult3.getD {}).song.length : Int)
        ≤ searchLimit ∧
    (((search3Merge searchLimit nav squid).searchResult3.getD {}).album.length : Int)
        ≤ searchLimit ∧
    (((search3Merge searchLimit nav squid).searchResult3.getD {}).artist.length : Int)
        ≤ searchLimit ∧
    ((search3Merge searchLimit nav squid).searchResult3.getD {}).playlist.length =
      (((match nav with
          | none => ({} : SearchResult3)
          | some r => r.searchResult3.getD {}).playlist.length) +
        ((squid.getD {}).playlist.length)) ∧
    ((fetchPlaylistsLoop searchLimit 0 items).length : Int) ≤ searchLimit := by
  have hlim : (if searchLimit ≤ 0 then (50 : Int) else searchLimit) = searchLimit := by
    rw [if_neg (by omega)]
  refine ⟨?_, ?_, ?_, ?_, ?_⟩
  · cases nav <;> cases squid <;>
      simp only [search3Merge, hlim, Option.getD_some] <;>
      exact truncateGo_length searchLimit hpos _
  · cases nav <;> cases squid <;>
      simp only [search3Merge, hlim, Option.getD_some] <;>
      exact truncateGo_length searchLimit hpos _
  · cases nav <;> cases squid <;>
      simp only [search3Merge, hlim, Option.getD_some] <;>
      exact truncateGo_length searchLimit hpos _
  · cases nav <;> cases squid <;> simp [search3Merge]
  · have h := fetchPlaylistsLoop_length searchLimit items 0 hpos
    omega

/-- Claim C6 (amended, witness): concrete instantiation at limit 1. -/
theorem search3Merge_truncation_witness :
    (0 : Int) < 1 ∧
    ((((search3Merge 1 (some navTwoPlaylists) none).searchResult3.getD {}).song.length : Int)
        ≤ 1 ∧
      (((search3Merge 1 (some navTwoPlaylists) none).searchResult3.getD {}).album.length : Int)
        ≤ 1 ∧
      (((search3Merge 1 (some navTwoPlaylists) none).searchResult3.getD {}).artist.length : Int)
        ≤ 1 ∧
      ((search3Merge 1 (some navTwoPlaylists) none).searchResult3.getD {}).playlist.length =
        (((match some navTwoPlaylists with
            | none => ({} : SearchResult3)
            | some r => r.searchResult3.getD {}).playlist.length) +
          (((none : Option SearchResult3).getD {}).playlist.length)) ∧
      ((fetchPlaylistsLoop 1 0 []).length : Int) ≤ 1) :=
  ⟨by decide, search3Merge_truncation 1 (some navTwoPlaylists) none [] (by decide)⟩

/-- Claim C7: the merged response always reports status ok with no error
object, and within each kind the library entries precede the gateway
entries: each merged kind is exactly the library list concatenated with the
gateway list (then truncated for song, album and artist). Since the merge is
a pure function of the two joined results, the order of completion of the
concurrent sub-requests cannot affect it. -/
theorem search3Merge_order (searchLimit : Int) (nav : Option Response)
    (squid : Option SearchResult3) :
    (search3Merge searchLimit nav squid).status = "ok".toList ∧
    (search3Merge searchLimit nav squid).error = none ∧
    (search3Merge searchLimit nav squid).searchResult3 =
      some
        { song := truncateGo (if searchLimit ≤ 0 then 50 else searchLimit)
            ((match nav with
              | none => ({} : SearchResult3)
              | some r => r.searchResult3.getD {}).song ++ (squid.getD {}).song),
          album := truncateGo (if searchLimit ≤ 0 then 50 else searchLimit)
            ((match nav with
              | none => ({} : SearchResult3)
              | some r => r.searchResult3.getD {}).album ++ (squid.getD {}).album),
          artist := truncateGo (if searchLimit ≤ 0 then 50 else searchLimit)
            ((match nav with
              | none => ({} : SearchResult3)
              | some r => r.searchResult3.getD {}).artist ++ (squid.getD {}).artist),
          playlist :=
            (match nav with
              | none => ({} : SearchResult3)
              | some r => r.searchResult3.getD {}).playlist ++ (squid.getD {}).playlist } := by
  cases nav <;> cases squid <;> simp [search3Merge]

/- ===================== Gateway cache policy (Search and GetSong) ===================== -/

/-- Environment of one SquidService.Search call: the cached bundle for the
query key (none on miss) and the outcomes of the four kind-specific
sub-fetches. Go's fetch helpers return a pair of value and error; on error
the value half is nil. -/
structure SearchEnv where
  query : GoStr
  cacheHit : Option SearchResult3
  songsFetch : List Song × Option GoStr
  albumsFetch : List Album × Option GoStr
  artistsFetch : List Artist × Option GoStr
  playlistsFetch : List Playlist × Option GoStr
  deriving DecidableEq, Repr

/-- Cache key used by Search. -/
def searchCacheKey (query : GoStr) : GoStr := "search:".toList ++ query

/-- Embedding of SquidService.Search (the revision with the 4-way fan-out
and the result cache): sub-fetch errors are logged only; the merged bundle
is assembled from whatever values came back and is then written to the
cache unconditionally. Returns the bundle and the cache writes performed. -/
def searchGo (env : SearchEnv) : SearchResult3 × List (GoStr × SearchResult3) :=
  match env.cacheHit with
  | some res => (res, [])
  | none =>
    let res : SearchResult3 :=
      { song := env.songsFetch.1, album := env.albumsFetch.1,
        artist := env.artistsFetch.1, playlist := env.playlistsFetch.1 }
    (res, [(searchCacheKey env.query, res)])

/-- Environment of one SquidService.GetSong call: the cached entity for the
id key (none on miss) and the outcome of the fallback-driven fetch and
decode pipeline. -/
structure GetSongEnv where
  id : GoStr
  cacheHit : Option Song
  fetch : Except GoStr Song
  deriving Repr

/-- Cache key used by GetSong, including the deployment version namespace. -/
def songCacheKey (id : GoStr) : GoStr := "jetstream:cache:v1:song:".toList ++ id

/-- Embedding of SquidService.GetSong: on a cache miss the song is fetched
through the fallback driver; only a fully successful fetch and parse stores
the entity under the key. Returns the result and the cache writes. -/
def getSongGo (env : GetSongEnv) : Except GoStr Song × List (GoStr × Song) :=
  match env.cacheHit with
  | some song => (.ok song, [])
  | none =>
    match env.fetch with
    | .error e => (.error e, [])
    | .ok song => (.ok song, [(songCacheKey env.id, song)])

/-- A Search environment with a cache miss where the song sub-query failed
while the album sub-query succeeded. -/
def searchEnvPartial : SearchEnv :=
  { query := "love".toList
    cacheHit := none
    songsFetch := ([], some "failed to decode json".toList)
    albumsFetch := ([{ id := "ext-squidwtf-album-1".toList }], none)
    artistsFetch := ([], none)
    playlistsFetch := ([], none) }

/-- Claim C4 (counterexample): on a cache miss with a failed song sub-query,
Search still writes the merged bundle to the cache; the stored value has an
empty song list next to a non-empty album list, i.e. a partial response. -/
theorem searchGo_caches_partial :
    (searchGo searchEnvPartial).2 =
      [(searchCacheKey "love".toList,
        { song := [], album := [{ id := "ext-squidwtf-album-1".toList }],
          artist := [], playlist := [] })] ∧
    searchEnvPartial.songsFetch.2 ≠ none := by
  refine ⟨by decide, by decide⟩

/-- Claim C4 (amended): the single-entity fetch GetSong writes the cache
only after a fully successful upstream fetch (nothing is stored when the
fetch fails), while Search always writes the merged bundle on a miss, even
when a kind-specific sub-query failed. -/
theorem cacheWrite_policy (envS : GetSongEnv) (envQ : SearchEnv)
    (hS : envS.cacheHit = none) (hQ : envQ.cacheHit = none) :
    (∀ e, envS.fetch = .error e → getSongGo envS = (.error e, [])) ∧
    (∀ song, envS.fetch = .ok song →
      getSongGo envS = (.ok song, [(songCacheKey envS.id, song)])) ∧
    (searchGo envQ).2 =
      [(searchCacheKey envQ.query,
        { song := envQ.songsFetch.1, album := envQ.albumsFetch.1,
          artist := envQ.artistsFetch.1, playlist := envQ.playlistsFetch.1 })] := by
  refine ⟨?_, ?_, ?_⟩
  · intro e he; simp [getSongGo, hS, he]
  · intro song hsong; simp [getSongGo, hS, hsong]
  · simp [searchGo, hQ]

/-- A GetSong environment with a cache miss and a failed upstream fetch. -/
def getSongEnvErr : GetSongEnv :=
  { id := "s1".toList, cacheHit := none, fetch := .error "HTTP 500".toList }

/-- Claim C4 (amended, witness): concrete instantiation. -/
theorem cacheWrite_policy_witness :
    getSongEnvErr.cacheHit = none ∧
    searchEnvPartial.cacheHit = none ∧
    ((∀ e, getSongEnvErr.fetch = .error e → getSongGo getSongEnvErr = (.error e, [])) ∧
      (∀ song, getSongEnvErr.fetch = .ok song →
        getSongGo getSongEnvErr = (.ok song, [(songCacheKey getSongEnvErr.id, song)])) ∧
      (searchGo searchEnvPartial).2 =
        [(searchCacheKey searchEnvPartial.query,
          { song := searchEnvPartial.songsFetch.1,
            album := searchEnvPartial.albumsFetch.1,
            artist := searchEnvPartial.artistsFetch.1,
            playlist := searchEnvPartial.playlistsFetch.1 })]) :=
  ⟨rfl, rfl, cacheWrite_policy getSongEnvErr searchEnvPartial rfl rfl⟩

/- ===================== Sync service (internal/service/sync_service.go) ===================== -/

/-- Characters treated as whitespace by the TrimSpace model (the ASCII
whitespace recognized by unicode.IsSpace; the probe output only ever
carries spaces and line endings). -/
def isSpaceGo (c : Char) : Bool :=
  c == ' ' || c == '\t' || c == '\n' || c == '\r' || c == '\x0b' || c == '\x0c'

/-- Embedding of strings.TrimSpace. -/
def trimSpaceGo (s : GoStr) : GoStr :=
  ((s.dropWhile isSpaceGo).reverse.dropWhile isSpaceGo).reverse

/-- Decimal digit test. -/
def isDigitGo (c : Char) : Bool := decide ('0' ≤ c) && decide (c ≤ '9')

/-- Value of a run of decimal digits. -/
def digitsToNat (ds : GoStr) : Nat :=
  ds.foldl (fun acc c => acc * 10 + (c.toNat - '0'.toNat)) 0

/-- Model of strconv.ParseFloat restricted to plain signed decimal
notation. The parsed value is kept as an exact fraction: the result
(num, den) denotes the rational num / den with den = 10^(fractional
digits). Every duration ffprobe prints (six-decimal fixed point) is parsed
exactly by both this model and Go's float64, and the threshold 1.0 is
exactly representable in binary floating point, so comparisons against it
agree with the Go code for all probe outputs. -/
def parseDecimal (s : GoStr) : Option (Int × Nat) :=
  let signed : Int × GoStr :=
    match s with
    | '-' :: r => (-1, r)
    | '+' :: r => (1, r)
    | r => (1, r)
  let intPart := signed.2.takeWhile isDigitGo
  let rest := signed.2.dropWhile isDigitGo
  match rest with
  | [] =>
    if intPart.isEmpty then none
    else some (signed.1 * (digitsToNat intPart : Int), 1)
  | '.' :: frac =>
    if frac.all isDigitGo && !(intPart.isEmpty && frac.isEmpty) then
      some (signed.1 * ((digitsToNat intPart * 10 ^ frac.length + digitsToNat frac : Nat) : Int),
        10 ^ frac.length)
    else none
  | _ => none

/-- Outcome of running ffprobe on a file: either a non-zero exit, or a
normal exit with the printed duration line. -/
inductive ProbeResult where
  | failed (output : GoStr)
  | completed (output : GoStr)
  deriving DecidableEq, Repr

/-- Embedding of SyncService.VerifyIntegrity: trim the probe output, reject
empty or N/A, parse the duration, and reject durations at or below 1.0
seconds (the source tests duration <= 1.0). Returns some error message on
failure and none on success. -/
def verifyIntegrity (probe : ProbeResult) : Option GoStr :=
  match probe with
  | .failed _ => some "ffprobe failed".toList
  | .completed output =>
    let durationStr := trimSpaceGo output
    if durationStr == [] || durationStr == "N/A".toList then
      some "could not determine file duration".toList
    else
      match parseDecimal durationStr with
      | none => some "failed to parse duration".toList
      | some duration =>
        -- duration.1 / duration.2 <= 1.0 with duration.2 > 0
        if duration.1 ≤ (duration.2 : Int) then some "file duration too short".toList
        else none

/-- Claim C5 (code bug): at the boundary the code disagrees with both the
spec and its own comment. A probe that reports exactly 1.0 seconds is
rejected (duration <= 1.0 errors), although the spec states success iff the
duration is at least 1.0s and the code comment reads must be at least 1
second. Away from the boundary the embedded check behaves as claimed:
probe failure, unparseable output and short durations error, longer
durations succeed. -/
theorem verifyIntegrity_boundary :
    verifyIntegrity (.completed "1.000000\n".toList) = some "file duration too short".toList ∧
    verifyIntegrity (.completed "0.500000".toList) = some "file duration too short".toList ∧
    verifyIntegrity (.completed "180.000000".toList) = none ∧
    verifyIntegrity (.completed "N/A".toList) = some "could not determine file duration".toList ∧
    verifyIntegrity (.completed "".toList) = some "could not determine file duration".toList ∧
    verifyIntegrity (.completed "abc".toList) = some "failed to parse duration".toList ∧
    verifyIntegrity (.failed "exit status 1".toList) = some "ffprobe failed".toList := by
  refine ⟨by decide, by decide, by decide, by decide, by decide, by decide, by decide⟩

/- ===================== Path sanitization and published layout ===================== -/

/-- Embedding of one strings.ReplaceAll step for a single-character
pattern: every occurrence of old becomes new. -/
def goReplaceAllChar (old new : Char) (s : GoStr) : GoStr :=
  s.map fun c => if c = old then new else c

/-- Embedding of SyncService.SanitizePath from sync_service.go: the nine
reserved characters are replaced by underscores, then surrounding
whitespace is trimmed. -/
def sanitizePath (p : GoStr) : GoStr :=
  trimSpaceGo
    (goReplaceAllChar '|' '_'
      (goReplaceAllChar '>' '_'
        (goReplaceAllChar '<' '_'
          (goReplaceAllChar '"' '_'
            (goReplaceAllChar '?' '_'
              (goReplaceAllChar '*' '_'
                (goReplaceAllChar ':' '_'
                  (goReplaceAllChar '\\' '_'
                    (goReplaceAllChar '/' '_' p)))))))))

/-- The characters SanitizePath replaces. -/
def forbiddenChars : GoStr := ['/', '\\', ':', '*', '?', '"', '<', '>', '|']

theorem mem_of_mem_dropWhile {c : Char} {p : Char → Bool} :
    ∀ {l : GoStr}, c ∈ l.dropWhile p → c ∈ l := by
  intro l
  induction l with
  | nil => simp
  | cons a l ih =>
    intro h
    rw [List.dropWhile_cons] at h
    by_cases hp : p a
    · simp only [hp, reduceIte] at h
      exact List.mem_cons_of_mem a (ih h)
    · simpa [hp] using h

theorem mem_of_mem_trimSpaceGo {c : Char} {s : GoStr} (h : c ∈ trimSpaceGo s) : c ∈ s := by
  unfold trimSpaceGo at h
  rw [List.mem_reverse] at h
  have h1 := mem_of_mem_dropWhile h
  rw [List.mem_reverse] at h1
  exact mem_of_mem_dropWhile h1

theorem not_mem_goReplaceAllChar_self (old : Char) (hne : old ≠ '_') (s : GoStr) :
    old ∉ goReplaceAllChar old '_' s := by
  intro h
  rcases List.mem_map.1 h with ⟨x, _, hx⟩
  by_cases hxo : x = old
  · rw [if_pos hxo] at hx
    exact hne hx.symm
  · rw [if_neg hxo] at hx
    exact hxo hx

theorem not_mem_goReplaceAllChar_of (old new c : Char) (s : GoStr)
    (h : c ∉ s) (hcn : c ≠ new) : c ∉ goReplaceAllChar old new s := by
  intro hmem
  rcases List.mem_map.1 hmem with ⟨x, hxs, hx⟩
  by_cases hxo : x = old
  · rw [if_pos hxo] at hx
    exact hcn hx.symm
  · rw [if_neg hxo] at hx
    exact h (hx ▸ hxs)

/-- Sanitized strings contain none of the nine replaced characters. -/
theorem sanitizePath_no_forbidden (p : GoStr) :
    ∀ c ∈ forbiddenChars, c ∉ sanitizePath p := by
  intro c hc hmem
  have h1 := mem_of_mem_trimSpaceGo hmem
  unfold forbiddenChars at hc
  simp only [List.mem_cons, List.not_mem_nil, or_false] at hc
  rcases hc with rfl | rfl | rfl | rfl | rfl | rfl | rfl | rfl | rfl <;>
    exact absurd h1 (by
      repeat
        first
          | exact not_mem_goReplaceAllChar_self _ (by decide) _
          | refine not_mem_goReplaceAllChar_of _ _ _ _ ?_ (by decide))

/-- Path components come from splitting on the separator and carry none of
it. -/
theorem not_mem_goSplit (sep : Char) :
    ∀ (s : GoStr) (x : GoStr), x ∈ goSplit sep s → sep ∉ x := by
  intro s
  induction s with
  | nil => intro x hx; simp [goSplit] at hx; simp [hx]
  | cons c rest ih =>
    intro x hx
    by_cases hcs : c = sep
    · subst hcs
      simp only [goSplit, if_pos rfl] at hx
      rcases List.mem_cons.1 hx with h | h
      · simp [h]
      · exact ih x h
    · simp only [goSplit, if_neg hcs] at hx
      have hne := goSplit_ne_nil sep rest
      cases hsr : goSplit sep rest with
      | nil => exact absurd hsr hne
      | cons h t =>
        rw [hsr] at hx
        rcases List.mem_cons.1 hx with hx0 | hx1
        · subst hx0
          intro hmem
          rcases List.mem_cons.1 hmem with h0 | h1
          · exact hcs h0.symm
          · exact ih h (by simp [hsr]) h1
        · exact ih x (by simp [hsr, hx1])

/-- One folding step of path cleaning (Go's filepath.Clean restricted to
rooted paths, acting on the component list). -/
def cleanStep (acc : List GoStr) (c : GoStr) : List GoStr :=
  if c = [] then acc
  else if c = ".".toList then acc
  else if c = "..".toList then acc.dropLast
  else acc ++ [c]

/-- Component-level model of filepath.Clean for rooted paths: empty and dot
components vanish, dot-dot pops, everything else is kept in order. -/
def cleanComps (comps : List GoStr) : List GoStr :=
  comps.foldl cleanStep []

/-- A component that Clean keeps verbatim. -/
def normalComp (c : GoStr) : Prop :=
  c ≠ [] ∧ c ≠ ".".toList ∧ c ≠ "..".toList

theorem cleanStep_normal (acc : List GoStr) {c : GoStr} (h : normalComp c) :
    cleanStep acc c = acc ++ [c] := by
  unfold cleanStep
  rw [if_neg h.1, if_neg h.2.1, if_neg h.2.2]

theorem cleanComps_foldl_normal :
    ∀ (l : List GoStr) (acc : List GoStr), (∀ x ∈ l, normalComp x) →
      List.foldl cleanStep acc l = acc ++ l := by
  intro l
  induction l with
  | nil => intro acc _; simp
  | cons c l ih =>
    intro acc h
    have hc : normalComp c := h c (List.mem_cons_self _ _)
    rw [List.foldl_cons, cleanStep_normal acc hc,
      ih (acc ++ [c]) (fun x hx => h x (List.mem_cons_of_mem _ hx))]
    simp

theorem cleanComps_of_normal (l : List GoStr) (h : ∀ x ∈ l, normalComp x) :
    cleanComps l = l := by
  unfold cleanComps
  rw [cleanComps_foldl_normal l [] h]
  simp

theorem cleanComps_append_normal (l : List GoStr) {c : GoStr} (h : normalComp c) :
    cleanComps (l ++ [c]) = cleanComps l ++ [c] := by
  unfold cleanComps
  rw [List.foldl_append]
  simp [cleanStep_normal _ h]

theorem mem_foldl_cleanStep :
    ∀ (l : List GoStr) (acc : List GoStr) (x : GoStr), x ∈ List.foldl cleanStep acc l →
      x ∈ acc ∨ (x ∈ l ∧ normalComp x) := by
  intro l
  induction l with
  | nil => intro acc x hx; exact Or.inl (by simpa using hx)
  | cons c l ih =>
    intro acc x hx
    rw [List.foldl_cons] at hx
    rcases ih (cleanStep acc c) x hx with h | h
    · unfold cleanStep at h
      split_ifs at h with h1 h2 h3
      · exact Or.inl h
      · exact Or.inl h
      · exact Or.inl ((List.dropLast_sublist acc).subset h)
      · rcases List.mem_append.1 h with h4 | h4
        · exact Or.inl h4
        · have hxc : x = c := by simpa using h4
          subst hxc
          exact Or.inr ⟨List.mem_cons_self _ _, h1, h2, h3⟩
    · exact Or.inr ⟨List.mem_cons_of_mem _ h.1, h.2⟩

theorem mem_cleanComps (l : List GoStr) (x : GoStr) (hx : x ∈ cleanComps l) :
    x ∈ l ∧ normalComp x := by
  rcases mem_foldl_cleanStep l [] x hx with h | h
  · simp at h
  · exact h

/-- Embedding of filepath.Join for a rooted first element: the non-empty
elements are joined with the separator and the result is cleaned. The
cleaned rooted path is rebuilt as a leading separator followed by the
cleaned components. -/
def filepathJoin (elems : List GoStr) : GoStr :=
  '/' :: goJoin '/' (cleanComps (goSplit '/' (goJoin '/' (elems.filter fun e => !e.isEmpty))))

/-- Cleaned component view of a path string: the directory chain a rooted
path denotes after resolving empty, dot and dot-dot components. A file lies
inside a directory exactly when its component list extends the
directory's. -/
def pathComps (s : GoStr) : List GoStr := cleanComps (goSplit '/' s)

theorem pathComps_elements (s : GoStr) :
    ∀ x ∈ pathComps s, normalComp x ∧ '/' ∉ x := by
  intro x hx
  obtain ⟨hmem, hnorm⟩ := mem_cleanComps _ x hx
  exact ⟨hnorm, not_mem_goSplit '/' s x hmem⟩

theorem goJoin_cons_of_ne_nil (sep : Char) (a : GoStr) {l : List GoStr} (h : l ≠ []) :
    goJoin sep (a :: l) = a ++ sep :: goJoin sep l := by
  cases l with
  | nil => exact absurd rfl h
  | cons b t => simp [goJoin]

theorem goJoin_append_last (sep : Char) (suffix : GoStr) :
    ∀ (A : List GoStr) (b : GoStr),
      goJoin sep (A ++ [b]) ++ suffix = goJoin sep (A ++ [b ++ suffix]) := by
  intro A
  induction A with
  | nil => intro b; simp [goJoin]
  | cons a A ih =>
    intro b
    rw [List.cons_append, List.cons_append,
      goJoin_cons_of_ne_nil sep a (by simp), goJoin_cons_of_ne_nil sep a (by simp)]
    simp [ih b]

/-- Splitting a rebuilt rooted path recovers its clean components. -/
theorem pathComps_rebuild (L : List GoStr) (hL : L ≠ [])
    (h : ∀ x ∈ L, normalComp x ∧ '/' ∉ x) :
    pathComps ('/' :: goJoin '/' L) = L := by
  unfold pathComps
  have hsplit : goSplit '/' ('/' :: goJoin '/' L) = [] :: goSplit '/' (goJoin '/' L) := by
    simp [goSplit]
  rw [hsplit, goSplit_goJoin '/' L hL (fun x hx => (h x hx).2)]
  show List.foldl cleanStep (cleanStep [] []) L = L
  have : cleanStep ([] : List GoStr) [] = [] := by simp [cleanStep]
  rw [this, cleanComps_foldl_normal L [] (fun x hx => (h x hx).1)]
  simp

/-- Joining a directory with one normal, separator-free name appends one
component to the directory's clean component chain. -/
theorem pathComps_filepathJoin_two (dir name : GoStr) (hdir : dir ≠ [])
    (hname : normalComp name) (hnsep : '/' ∉ name) :
    pathComps (filepathJoin [dir, name]) = pathComps dir ++ [name] ∧
    filepathJoin [dir, name] = '/' :: goJoin '/' (pathComps dir ++ [name]) := by
  have hd : (!dir.isEmpty) = true := by
    simp [List.isEmpty_iff, hdir]
  have hn : (!name.isEmpty) = true := by
    simp [List.isEmpty_iff, hname.1]
  have hfilter : ([dir, name].filter fun e => !e.isEmpty) = [dir, name] := by
    simp [List.filter, hd, hn]
  have hjoin2 : goJoin '/' [dir, name] = dir ++ '/' :: name := by simp [goJoin]
  have hsplitname : goSplit '/' name = [name] := goSplit_of_not_mem '/' name hnsep
  have hinner : cleanComps (goSplit '/' (goJoin '/' [dir, name])) = pathComps dir ++ [name] := by
    rw [hjoin2, goSplit_append_sep, hsplitname, cleanComps_append_normal _ hname]
    rfl
  have hL : pathComps dir ++ [name] ≠ [] := by simp
  have hprops : ∀ x ∈ pathComps dir ++ [name], normalComp x ∧ '/' ∉ x := by
    intro x hx
    rcases List.mem_append.1 hx with h | h
    · exact pathComps_elements dir x h
    · have : x = name := by simpa using h
      subst this
      exact ⟨hname, hnsep⟩
  constructor
  · show pathComps ('/' :: goJoin '/' (cleanComps (goSplit '/'
      (goJoin '/' ([dir, name].filter fun e => !e.isEmpty))))) = pathComps dir ++ [name]
    rw [hfilter, hinner]
    exact pathComps_rebuild _ hL hprops
  · show ('/' :: goJoin '/' (cleanComps (goSplit '/'
      (goJoin '/' ([dir, name].filter fun e => !e.isEmpty))))) = _
    rw [hfilter, hinner]

/-- Decimal digit character. -/
def digitChar (d : Nat) : Char :=
  if d = 0 then '0' else if d = 1 then '1' else if d = 2 then '2' else if d = 3 then '3'
  else if d = 4 then '4' else if d = 5 then '5' else if d = 6 then '6'
  else if d = 7 then '7' else if d = 8 then '8' else '9'

/-- Fuel-driven decimal rendering of a natural number (most significant
digit first); fuel n + 1 always suffices. -/
def natReprAux : Nat → Nat → GoStr
  | 0, _ => []
  | fuel + 1, n =>
    if n < 10 then [digitChar n]
    else natReprAux fuel (n / 10) ++ [digitChar (n % 10)]

/-- Decimal rendering of a natural number. -/
def natRepr (n : Nat) : GoStr := natReprAux (n + 1) n

/-- Embedding of the track-number formatting fmt.Sprintf %02d: pad with a
leading zero to width two; the sign of a negative value counts towards the
width. -/
def fmtPad2 (n : Int) : GoStr :=
  if n < 0 then '-' :: natRepr (-n).toNat
  else if (natRepr n.toNat).length < 2 then '0' :: natRepr n.toNat
  else natRepr n.toNat

theorem digitChar_ne_sep (d : Nat) : digitChar d ≠ '/' := by
  unfold digitChar
  split_ifs <;> decide

theorem natReprAux_no_sep : ∀ (fuel n : Nat), '/' ∉ natReprAux fuel n := by
  intro fuel
  induction fuel with
  | zero => intro n; simp [natReprAux]
  | succ fuel ih =>
    intro n
    unfold natReprAux
    split
    · simp [digitChar_ne_sep n]
      intro h
      exact absurd h.symm (digitChar_ne_sep n)
    · intro h
      rcases List.mem_append.1 h with h1 | h1
      · exact ih (n / 10) h1
      · have : '/' = digitChar (n % 10) := by simpa using h1
        exact absurd this.symm (digitChar_ne_sep (n % 10))

theorem natReprAux_ne_nil (fuel n : Nat) (h : 0 < fuel) : natReprAux fuel n ≠ [] := by
  cases fuel with
  | zero => omega
  | succ fuel =>
    unfold natReprAux
    split <;> simp

theorem fmtPad2_no_sep (n : Int) : '/' ∉ fmtPad2 n := by
  unfold fmtPad2
  split_ifs
  · intro h
    rcases List.mem_cons.1 h with h1 | h1
    · exact absurd h1 (by decide)
    · exact natReprAux_no_sep _ _ h1
  · intro h
    rcases List.mem_cons.1 h with h1 | h1
    · exact absurd h1 (by decide)
    · exact natReprAux_no_sep _ _ h1
  · exact natReprAux_no_sep _ _

theorem fmtPad2_length (n : Int) : 2 ≤ (fmtPad2 n).length := by
  unfold fmtPad2
  split_ifs with h1 h2
  · have := natReprAux_ne_nil ((-n).toNat + 1) (-n).toNat (by omega)
    have hpos : 0 < (natRepr (-n).toNat).length := List.length_pos.2 this
    simp only [List.length_cons, natRepr] at hpos ⊢
    omega
  · simp only [List.length_cons]
    have := natReprAux_ne_nil (n.toNat + 1) n.toNat (by omega)
    have hpos : 0 < (natRepr n.toNat).length := List.length_pos.2 this
    simp only [natRepr] at hpos ⊢
    omega
  · omega

/- ===================== Published file layout (SyncSong step 1) ===================== -/

/-- Target directory computed by SyncSong:
filepath.Join of /music/jetstream with the sanitized artist and album. -/
def targetDirOf (song : Song) : GoStr :=
  filepathJoin ["/music/jetstream".toList, sanitizePath song.artist, sanitizePath song.album]

/-- Published file basename computed by SyncSong:
fmt.Sprintf NN - [id] title.format with the title sanitized. -/
def fileNameOf (song : Song) (format : GoStr) : GoStr :=
  fmtPad2 song.track ++ " - [".toList ++ song.id ++ "] ".toList
    ++ sanitizePath song.title ++ ".".toList ++ format

/-- Published file path computed by SyncSong. -/
def outputPathOf (song : Song) (format : GoStr) : GoStr :=
  filepathJoin [targetDirOf song, fileNameOf song format]

/-- Metadata sidecar path written by saveMetadata. -/
def sidecarPathOf (song : Song) (format : GoStr) : GoStr :=
  outputPathOf song format ++ ".json".toList

theorem length_ne_of_gt {l : GoStr} {m : GoStr} (h : m.length < l.length) : l ≠ m := by
  intro hEq
  rw [hEq] at h
  omega

theorem fileNameOf_length (song : Song) (format : GoStr) :
    6 ≤ (fileNameOf song format).length := by
  unfold fileNameOf
  have h := fmtPad2_length song.track
  simp only [List.length_append]
  have h4 : (" - [".toList : GoStr).length = 4 := rfl
  omega

theorem fileNameOf_no_sep (song : Song) (format : GoStr)
    (hid : '/' ∉ song.id) (hfmt : '/' ∉ format) :
    '/' ∉ fileNameOf song format := by
  unfold fileNameOf
  intro h
  rcases List.mem_append.1 h with h | h
  · rcases List.mem_append.1 h with h | h
    · rcases List.mem_append.1 h with h | h
      · rcases List.mem_append.1 h with h | h
        · rcases List.mem_append.1 h with h | h
          · rcases List.mem_append.1 h with h | h
            · exact fmtPad2_no_sep song.track h
            · exact absurd h (by decide)
          · exact hid h
        · exact absurd h (by decide)
      · exact sanitizePath_no_forbidden song.title '/' (by decide) h
    · exact absurd h (by decide)
  · exact hfmt h

theorem fileNameOf_normal (song : Song) (format : GoStr) :
    normalComp (fileNameOf song format) := by
  have h := fileNameOf_length song format
  refine ⟨?_, ?_, ?_⟩
  · intro hEq
    rw [hEq] at h
    simp at h
  · exact length_ne_of_gt (by rw [show (".".toList : GoStr).length = 1 from rfl]; omega)
  · exact length_ne_of_gt (by rw [show ("..".toList : GoStr).length = 2 from rfl]; omega)

/-- Claim C10: the artist, album and title fields are sanitized before path
construction, so none of the nine reserved characters (in particular no
path separator) survives in them, and both the published file and its
sidecar are a single extra path component inside the computed
music-root/jetstream/artist/album directory. The external identifier and
the configured format are the only other basename inputs; they carry no
separator for the identifiers the gateway builds. -/
theorem sanitizePath_confines (song : Song) (format : GoStr)
    (hid : '/' ∉ song.id) (hfmt : '/' ∉ format) :
    (∀ c ∈ forbiddenChars,
      c ∉ sanitizePath song.artist ∧ c ∉ sanitizePath song.album ∧
        c ∉ sanitizePath song.title) ∧
    pathComps (outputPathOf song format) =
      pathComps (targetDirOf song) ++ [fileNameOf song format] ∧
    pathComps (sidecarPathOf song format) =
      pathComps (targetDirOf song) ++ [fileNameOf song format ++ ".json".toList] := by
  have hnormal := fileNameOf_normal song format
  have hnosep := fileNameOf_no_sep song format hid hfmt
  have hdir : targetDirOf song ≠ [] := by
    unfold targetDirOf filepathJoin
    simp
  obtain ⟨hcomps, hrebuild⟩ :=
    pathComps_filepathJoin_two (targetDirOf song) (fileNameOf song format)
      hdir hnormal hnosep
  refine ⟨?_, ?_, ?_⟩
  · intro c hc
    exact ⟨sanitizePath_no_forbidden song.artist c hc,
      sanitizePath_no_forbidden song.album c hc,
      sanitizePath_no_forbidden song.title c hc⟩
  · exact hcomps
  · have hsuffix : sidecarPathOf song format =
        '/' :: goJoin '/' (pathComps (targetDirOf song) ++
          [fileNameOf song format ++ ".json".toList]) := by
      unfold sidecarPathOf
      rw [show outputPathOf song format = filepathJoin [targetDirOf song, fileNameOf song format]
        from rfl, hrebuild]
      simp only [List.cons_append]
      rw [goJoin_append_last]
    rw [hsuffix]
    apply pathComps_rebuild
    · simp
    · intro x hx
      rcases List.mem_append.1 hx with h | h
      · exact pathComps_elements (targetDirOf song) x h
      · have hxEq : x = fileNameOf song format ++ ".json".toList := by simpa using h
        subst hxEq
        constructor
        · have hlen := fileNameOf_length song format
          refine ⟨?_, ?_, ?_⟩
          · intro hEq
            have := congrArg List.length hEq
            simp only [List.length_append, List.length_nil] at this
            omega
          · apply length_ne_of_gt
            rw [show (".".toList : GoStr).length = 1 from rfl]
            simp only [List.length_append]
            omega
          · apply length_ne_of_gt
            rw [show ("..".toList : GoStr).length = 2 from rfl]
            simp only [List.length_append]
            omega
        · intro hmem
          rcases List.mem_append.1 hmem with h1 | h1
          · exact hnosep h1
          · exact absurd h1 (by decide)

/-- The concrete song of the spec stream scenario, with a slash in the
artist name to exercise sanitization. -/
def songScenario : Song :=
  { id := "ext-p-song-99".toList
    artist := "AC/DC".toList
    album := "Back in Black".toList
    title := "Hells Bells".toList
    track := 1 }

/-- Claim C10 (witness): the concrete song of the spec scenarios. -/
theorem sanitizePath_confines_witness :
    ('/' ∉ songScenario.id) ∧ ('/' ∉ "opus".toList) ∧
    ((∀ c ∈ forbiddenChars,
      c ∉ sanitizePath songScenario.artist ∧ c ∉ sanitizePath songScenario.album ∧
        c ∉ sanitizePath songScenario.title) ∧
    pathComps (outputPathOf songScenario "opus".toList) =
      pathComps (targetDirOf songScenario) ++ [fileNameOf songScenario "opus".toList] ∧
    pathComps (sidecarPathOf songScenario "opus".toList) =
      pathComps (targetDirOf songScenario) ++
        [fileNameOf songScenario "opus".toList ++ ".json".toList]) :=
  ⟨by decide, by decide,
    sanitizePath_confines songScenario "opus".toList (by decide) (by decide)⟩

/- ===================== Sync worker control flow (SyncSong) ===================== -/

/-- The externally visible operations SyncSong can perform, in program
order. -/
inductive SyncAction where
  | mkdirAllA
  | statCoverA
  | downloadCoverA
  | writeCoverA
  | statSongFileA
  | verifySongFileA
  | saveMetadataA
  | getStreamURLA
  | transcodeA
  deriving DecidableEq, Repr

/-- Environment of one SyncSong run: the filesystem facts it observes and
the outcomes of the operations it may perform. -/
structure SyncEnv where
  mkdirOk : Bool
  coverOnDisk : Bool
  coverDownload : Except GoStr GoStr
  fileOnDisk : Bool
  fileVerifies : Bool
  streamURL : Except GoStr GoStr
  transcodeRun : Except GoStr Unit
  deriving Repr

/-- Steps 4 and 5 of SyncSong: acquire a stream URL, then download and
transcode (the transcoder pipeline is summarized by its outcome, which
already accounts for the retry without cover and the post-publish check). -/
def syncSongTail (env : SyncEnv) (trace : List SyncAction) :
    Except GoStr Unit × List SyncAction :=
  match env.streamURL with
  | .error e => (.error e, trace ++ [.getStreamURLA])
  | .ok _ =>
    match env.transcodeRun with
    | .error e => (.error e, trace ++ [.getStreamURLA, .transcodeA])
    | .ok _ => (.ok (), trace ++ [.getStreamURLA, .transcodeA])

/-- Embedding of SyncService.SyncSong: create the target directory, ensure
the album cover, then, when the published file exists and verifies, refresh
the metadata sidecar and return; otherwise fall through to the stream
URL request and the transcode. Returns the result and the performed
actions. -/
def syncSong (song : Song) (env : SyncEnv) : Except GoStr Unit × List SyncAction :=
  if env.mkdirOk = false then (.error "mkdir failed".toList, [.mkdirAllA])
  else
    let t1 : List SyncAction := [.mkdirAllA]
    let t2 : List SyncAction :=
      if song.coverArt ≠ [] then
        if env.coverOnDisk = false then
          match env.coverDownload with
          | .ok _ => t1 ++ [.statCoverA, .downloadCoverA, .writeCoverA]
          | .error _ => t1 ++ [.statCoverA, .downloadCoverA]
        else t1 ++ [.statCoverA]
      else t1
    if env.fileOnDisk then
      if env.fileVerifies then
        (.ok (), t2 ++ [.statSongFileA, .verifySongFileA, .saveMetadataA])
      else
        syncSongTail env (t2 ++ [.statSongFileA, .verifySongFileA])
    else
      syncSongTail env (t2 ++ [.statSongFileA])

/-- Claim C9: a second SyncSong run over a published, integrity-verified
file is a no-op past the existence-and-verify step: it succeeds, refreshes
the metadata sidecar, and performs no stream URL request, no download and
no transcode. -/
theorem syncSong_idempotent (song : Song) (env : SyncEnv)
    (hmk : env.mkdirOk = true) (hfile : env.fileOnDisk = true)
    (hver : env.fileVerifies = true) :
    (syncSong song env).1 = .ok () ∧
    SyncAction.getStreamURLA ∉ (syncSong song env).2 ∧
    SyncAction.transcodeA ∉ (syncSong song env).2 ∧
    SyncAction.saveMetadataA ∈ (syncSong song env).2 := by
  unfold syncSong
  rw [hmk, hfile, hver]
  by_cases hca : song.coverArt = []
  · simp [hca]
  · by_cases hcd : env.coverOnDisk = false
    · cases hcdl : env.coverDownload with
      | ok v => simp [hca, hcd, hcdl]
      | error e => simp [hca, hcd, hcdl]
    · simp [hca, hcd]

/-- Environment of a second run: the file exists and verifies, the cover is
already on disk. -/
def syncEnvSecondRun : SyncEnv :=
  { mkdirOk := true
    coverOnDisk := true
    coverDownload := .ok []
    fileOnDisk := true
    fileVerifies := true
    streamURL := .ok []
    transcodeRun := .ok () }

/-- Claim C9 (witness): the concrete second run over the published file. -/
theorem syncSong_idempotent_witness :
    syncEnvSecondRun.mkdirOk = true ∧ syncEnvSecondRun.fileOnDisk = true ∧
    syncEnvSecondRun.fileVerifies = true ∧
    ((syncSong songScenario syncEnvSecondRun).1 = .ok () ∧
      SyncAction.getStreamURLA ∉ (syncSong songScenario syncEnvSecondRun).2 ∧
      SyncAction.transcodeA ∉ (syncSong songScenario syncEnvSecondRun).2 ∧
      SyncAction.saveMetadataA ∈ (syncSong songScenario syncEnvSecondRun).2) :=
  ⟨rfl, rfl, rfl, syncSong_idempotent songScenario syncEnvSecondRun rfl rfl rfl⟩

end JetStream
